import Mathlib

/-!
Verification of the SQuAD question-answering preprocessing pipeline in
src/utils/data_helpers.py (class LoadSQuADQuestionAnsweringDataset).

The Python functions are shallowly embedded as executable Lean definitions:
- strings become List Char / String, token lists become List String,
  id lists become List Nat;
- Python integers that can be negative (character-to-word offsets, answer
  positions derived from them) become Int; quantities that are always
  non-negative in the verified regime become Nat;
- Python list indexing and slicing with possibly negative indices are
  modelled by pyGet / pySliceI below, with Python semantics;
- a Python function that can raise becomes Option / Except, with none /
  .error standing for the raised exception;
- the unbounded while-loop of the sliding-window chunker is modelled with
  an explicit fuel parameter; the fuel supplied by the top-level definition
  is proved sufficient whenever the stride is positive (the only regime in
  which the Python loop terminates).
Logging calls, the tqdm progress bar, torch.tensor wrapping and the on-disk
cache decorator have no bearing on the computed values and are not modelled.
-/

namespace DataHelpers

/-- Python list indexing l[i]: negative i counts from the end; out of range
is an IndexError, modelled as none. -/
def pyGet {α : Type} (l : List α) (i : Int) : Option α :=
  let j : Int := if i < 0 then i + l.length else i
  if j < 0 then none else l.get? j.toNat

/-- Python slicing l[a:b] with integer bounds: negative bounds count from
the end, then both bounds are clamped to [0, len(l)]. -/
def pySliceI {α : Type} (l : List α) (a b : Int) : List α :=
  let a' : Int := if a < 0 then a + l.length else a
  let b' : Int := if b < 0 then b + l.length else b
  (l.take b'.toNat).drop a'.toNat

/-- is_whitespace from get_format_text_and_word_offset: space, tab,
carriage return, newline, and U+202F. -/
def is_whitespace (c : Char) : Bool :=
  c = ' ' || c = '\t' || c = '\r' || c = '\n' || c.toNat = 0x202F

/-- doc_tokens[-1] += c: append a character to the last token of the list.
The empty-list case is unreachable in the embedded loop (the previous
character was not whitespace, so a token exists). -/
def appendToLast : List String → Char → List String
  | [], _ => []
  | [t], c => [t.push c]
  | t :: ts, c => t :: appendToLast ts c

/-- Loop state of get_format_text_and_word_offset. char_to_word_offset
holds Python ints: before the first token is created the recorded value
len(doc_tokens) - 1 is -1. -/
structure OffsetState where
  doc_tokens : List String
  char_to_word_offset : List Int
  prev_is_whitespace : Bool
deriving DecidableEq

/-- One iteration of the character loop of get_format_text_and_word_offset. -/
def offsetStep (st : OffsetState) (c : Char) : OffsetState :=
  let tokens :=
    if is_whitespace c then st.doc_tokens
    else if st.prev_is_whitespace then st.doc_tokens ++ [String.singleton c]
    else appendToLast st.doc_tokens c
  { doc_tokens := tokens
    char_to_word_offset := st.char_to_word_offset ++ [(tokens.length : Int) - 1]
    prev_is_whitespace := is_whitespace c }

/-- get_format_text_and_word_offset: returns (doc_tokens, char_to_word_offset). -/
def get_format_text_and_word_offset (text : List Char) : List String × List Int :=
  let st := text.foldl offsetStep ⟨[], [], true⟩
  (st.doc_tokens, st.char_to_word_offset)

lemma appendToLast_length (ts : List String) (c : Char) :
    (appendToLast ts c).length = ts.length := by
  induction ts with
  | nil => rfl
  | cons t ts ih =>
    cases ts with
    | nil => rfl
    | cons u us => simpa [appendToLast] using ih

lemma offsetStep_tokens_length (st : OffsetState) (c : Char) :
    st.doc_tokens.length ≤ (offsetStep st c).doc_tokens.length := by
  unfold offsetStep
  dsimp only
  split
  · exact le_rfl
  · split
    · simp
    · rw [appendToLast_length]

lemma offsetStep_offsets (st : OffsetState) (c : Char) :
    (offsetStep st c).char_to_word_offset =
      st.char_to_word_offset ++ [((offsetStep st c).doc_tokens.length : Int) - 1] := by
  unfold offsetStep
  dsimp only

/-- Invariant carried through the character loop: the offsets recorded so
far are bounded by the current token count minus one, and are sorted. -/
def OffsetInv (st : OffsetState) : Prop :=
  st.char_to_word_offset.Chain' (· ≤ ·) ∧
    ∀ x ∈ st.char_to_word_offset, x ≤ (st.doc_tokens.length : Int) - 1

lemma offsetStep_inv (st : OffsetState) (c : Char) (h : OffsetInv st) :
    OffsetInv (offsetStep st c) := by
  obtain ⟨hchain, hbound⟩ := h
  have hlen := offsetStep_tokens_length st c
  constructor
  · rw [offsetStep_offsets]
    rw [List.chain'_append]
    refine ⟨hchain, List.chain'_singleton _, ?_⟩
    intro x hx y hy
    simp only [List.head?_cons, Option.mem_def, Option.some.injEq] at hy
    subst hy
    have hxmem : x ∈ st.char_to_word_offset := List.mem_of_mem_getLast? hx
    have := hbound x hxmem
    omega
  · rw [offsetStep_offsets]
    intro x hx
    rcases List.mem_append.mp hx with hx | hx
    · have := hbound x hx
      omega
    · simp only [List.mem_singleton] at hx
      omega

lemma foldl_offsetStep_inv (text : List Char) (st : OffsetState) (h : OffsetInv st) :
    OffsetInv (text.foldl offsetStep st) := by
  induction text generalizing st with
  | nil => exact h
  | cons c cs ih => exact ih _ (offsetStep_inv st c h)

lemma foldl_offsetStep_offsets_length (text : List Char) (st : OffsetState) :
    (text.foldl offsetStep st).char_to_word_offset.length =
      st.char_to_word_offset.length + text.length := by
  induction text generalizing st with
  | nil => simp
  | cons c cs ih =>
    simp only [List.foldl_cons, ih, offsetStep_offsets, List.length_append,
      List.length_cons]
    simp
    omega

/-- C8: For every input string, the char_to_word_offset list returned by
get_format_text_and_word_offset has length equal to the length of the text
and its values are non-decreasing from one character index to the next. -/
theorem char_to_word_offset_length_and_monotone (text : List Char) :
    (get_format_text_and_word_offset text).2.length = text.length ∧
      (get_format_text_and_word_offset text).2.Chain' (· ≤ ·) := by
  constructor
  · have := foldl_offsetStep_offsets_length text ⟨[], [], true⟩
    simpa [get_format_text_and_word_offset] using this
  · have hinv : OffsetInv (⟨[], [], true⟩ : OffsetState) := by
      constructor
      · exact List.chain'_nil
      · intro x hx
        simp at hx
    have := foldl_offsetStep_inv text ⟨[], [], true⟩ hinv
    exact this.1

lemma foldl_offsetStep_offsets_extend (text : List Char) (st : OffsetState) :
    st.char_to_word_offset <+: (text.foldl offsetStep st).char_to_word_offset := by
  induction text generalizing st with
  | nil => exact List.prefix_rfl
  | cons c cs ih =>
    refine List.IsPrefix.trans ?_ (ih (offsetStep st c))
    rw [offsetStep_offsets]
    exact List.prefix_append _ _

/-- C9 (amended): for every non-empty text whose first character is not
whitespace, the char_to_word_offset sequence starts at 0. -/
theorem char_to_word_offset_starts_at_zero (c : Char) (rest : List Char)
    (h : is_whitespace c = false) :
    (get_format_text_and_word_offset (c :: rest)).2.head? = some 0 := by
  unfold get_format_text_and_word_offset
  dsimp only
  rw [List.foldl_cons]
  have hstep : offsetStep ⟨[], [], true⟩ c =
      ⟨[String.singleton c], [0], false⟩ := by
    unfold offsetStep
    simp [h]
  rw [hstep]
  obtain ⟨t, ht⟩ := foldl_offsetStep_offsets_extend rest ⟨[String.singleton c], [0], false⟩
  rw [← ht]
  rfl

/-- Witness for the amended C9 at a concrete input. -/
theorem char_to_word_offset_starts_at_zero_witness :
    (get_format_text_and_word_offset ['a']).2.head? = some 0 :=
  char_to_word_offset_starts_at_zero 'a' [] (by decide)

/-- C9 counterexample: on the non-empty text consisting of a single space,
the first char_to_word_offset value is -1, not 0 (the code records
len(doc_tokens) - 1 = -1 for characters preceding the first token). -/
theorem char_to_word_offset_not_starting_at_zero :
    ([' '] : List Char) ≠ [] ∧
      (get_format_text_and_word_offset [' ']).2 = [-1] ∧
      (get_format_text_and_word_offset [' ']).2.head? ≠ some 0 := by
  refine ⟨by simp, ?_, ?_⟩ <;> decide

/-- Inner loop of improve_answer_span (for j in range(len(answer_tokens))):
m is the number of remaining iterations and j the current index; ne is the
running new_end (None before any assignment). The outer none models an
IndexError raised by context_tokens[i + j]; a normal exit (full run or
break) returns the current ne. -/
def improveInner (context answer : List String) (i : Nat) :
    Nat → Nat → Option Nat → Option (Option Nat)
  | 0, _, ne => some ne
  | m + 1, j, ne =>
    match answer.get? j with
    | none => none
    | some aj =>
      match context.get? (i + j) with
      | none => none
      | some cij =>
        if aj ≠ cij then some ne
        else improveInner context answer i m (j + 1) (some (i + j))

/-- Outer loop of improve_answer_span (for i in range(start_position,
len(context_tokens))): n is the number of remaining iterations. new_end
persists across outer iterations exactly as in the Python code. none
models a raised exception (IndexError on answer_tokens[0] or
context_tokens[i + j], or TypeError on None - i + 1). -/
def improveOuter (context answer : List String) (sp ep : Nat) :
    Nat → Nat → Option Nat → Option (Nat × Nat)
  | 0, _, _ => some (sp, ep)
  | n + 1, i, ne =>
    match context.get? i with
    | none => none
    | some ci =>
      match answer.head? with
      | none => none
      | some a0 =>
        if ci ≠ a0 then improveOuter context answer sp ep n (i + 1) ne
        else
          match improveInner context answer i answer.length 0 ne with
          | none => none
          | some none => none
          | some (some v) =>
            if (v : Int) - (i : Int) + 1 = (answer.length : Int) then some (i, v)
            else improveOuter context answer sp ep n (i + 1) (some v)

/-- improve_answer_span. Returns none when the Python function raises. -/
def improve_answer_span (context answer : List String) (sp ep : Nat) :
    Option (Nat × Nat) :=
  improveOuter context answer sp ep (context.length - sp) sp none

/-- The full answer token sequence occurs contiguously in the context at
position i. -/
def fullMatchAt (context answer : List String) (i : Nat) : Prop :=
  i + answer.length ≤ context.length ∧
    ∀ j, j < answer.length → context.get? (i + j) = answer.get? j

instance (context answer : List String) (i : Nat) :
    Decidable (fullMatchAt context answer i) := by
  unfold fullMatchAt
  infer_instance

/-- C10: improve_answer_span is not total: when a candidate first-token
match sits too close to the end of the context, the inner comparison
indexes context_tokens out of bounds and the call raises IndexError
(modelled as none) instead of falling back to the original span. -/
theorem improve_answer_span_index_error :
    improve_answer_span ["a"] ["a", "b"] 0 0 = none := by decide

lemma improveOuter_no_candidate (context answer : List String) (sp ep : Nat)
    (a0 : String) (ha : answer.head? = some a0)
    (hno : ∀ i, i < context.length → sp ≤ i → context.get? i ≠ some a0) :
    ∀ n i ne, i + n = context.length → sp ≤ i →
      improveOuter context answer sp ep n i ne = some (sp, ep) := by
  intro n
  induction n with
  | zero => intro i ne _ _; rfl
  | succ n ih =>
    intro i ne hlen hsp
    have hi : i < context.length := by omega
    have hci : context.get? i = some (context.get ⟨i, hi⟩) := List.get?_eq_get hi
    have hcne : context.get ⟨i, hi⟩ ≠ a0 := by
      intro h
      exact hno i hi hsp (h ▸ hci)
    simp only [improveOuter, hci, ha]
    rw [if_pos hcne]
    exact ih (i + 1) ne (by omega) (by omega)

/-- C5: when the first answer token does not occur in the context at any
index at or after start_position, improve_answer_span returns the original
(start_position, end_position) unchanged. -/
theorem improve_answer_span_no_match (context answer : List String) (sp ep : Nat)
    (hne : answer ≠ [])
    (hno : ∀ i, i < context.length → sp ≤ i → context.get? i ≠ answer.head?) :
    improve_answer_span context answer sp ep = some (sp, ep) := by
  obtain ⟨a0, ha⟩ : ∃ a0, answer.head? = some a0 := by
    cases answer with
    | nil => exact absurd rfl hne
    | cons a as => exact ⟨a, rfl⟩
  unfold improve_answer_span
  by_cases hsp : sp ≤ context.length
  · exact improveOuter_no_candidate context answer sp ep a0 ha
      (fun i hi h hc => hno i hi h (hc.trans ha.symm)) (context.length - sp) sp
      none (by omega) le_rfl
  · have : context.length - sp = 0 := by omega
    rw [this]
    rfl

/-- Witness for C5 at a concrete input: no occurrence of the first answer
token, so the approximate span is returned unchanged. -/
theorem improve_answer_span_no_match_witness :
    improve_answer_span ["x", "y"] ["z"] 0 1 = some (0, 1) :=
  improve_answer_span_no_match ["x", "y"] ["z"] 0 1 (by decide) (by decide)

lemma improveInner_all (context answer : List String) (i : Nat) :
    ∀ m j ne, j + m = answer.length →
      (∀ k, j ≤ k → k < answer.length → context.get? (i + k) = answer.get? k) →
      improveInner context answer i m j ne =
        some (if m = 0 then ne else some (i + answer.length - 1)) := by
  intro m
  induction m with
  | zero => intro j ne _ _; simp [improveInner]
  | succ m ih =>
    intro j ne hlen hmatch
    have hj : j < answer.length := by omega
    have haj : answer.get? j = some (answer.get ⟨j, hj⟩) := List.get?_eq_get hj
    have hcj : context.get? (i + j) = some (answer.get ⟨j, hj⟩) :=
      (hmatch j le_rfl hj).trans haj
    simp only [improveInner, haj, hcj]
    rw [if_neg (fun h => h rfl)]
    rw [ih (j + 1) (some (i + j)) (by omega)
      (fun k hk hk2 => hmatch k (by omega) hk2)]
    rw [if_neg (by omega : ¬ (m + 1 = 0))]
    rcases Nat.eq_zero_or_pos m with hm | hm
    · subst hm
      rw [if_pos rfl]
      congr 2
      omega
    · rw [if_neg (by omega)]

lemma improveInner_mismatch (context answer : List String) (i : Nat)
    (hbound : i + answer.length ≤ context.length) :
    ∀ m j ne, j + m = answer.length → 1 ≤ j → ne = some (i + j - 1) →
      (∃ k, j ≤ k ∧ k < answer.length ∧ context.get? (i + k) ≠ answer.get? k) →
      ∃ v, improveInner context answer i m j ne = some (some v) ∧
        i ≤ v ∧ v + 1 < i + answer.length := by
  intro m
  induction m with
  | zero =>
    intro j ne hlen _ _ hmis
    obtain ⟨k, hk1, hk2, _⟩ := hmis
    omega
  | succ m ih =>
    intro j ne hlen hj1 hne hmis
    have hj : j < answer.length := by omega
    have haj : answer.get? j = some (answer.get ⟨j, hj⟩) := List.get?_eq_get hj
    have hij : i + j < context.length := by omega
    have hcj : context.get? (i + j) = some (context.get ⟨i + j, hij⟩) :=
      List.get?_eq_get hij
    simp only [improveInner, haj, hcj]
    by_cases heq : answer.get ⟨j, hj⟩ = context.get ⟨i + j, hij⟩
    · rw [if_neg (fun hh => hh heq)]
      have hmis' : ∃ k, j + 1 ≤ k ∧ k < answer.length ∧
          context.get? (i + k) ≠ answer.get? k := by
        obtain ⟨k, hk1, hk2, hk3⟩ := hmis
        refine ⟨k, ?_, hk2, hk3⟩
        rcases Nat.eq_or_lt_of_le hk1 with h | h
        · exfalso
          apply hk3
          rw [← h, hcj, haj, heq]
        · omega
      exact ih (j + 1) (some (i + j)) (by omega) (by omega)
        (by congr 1) hmis'
    · rw [if_pos heq]
      rw [hne]
      exact ⟨i + j - 1, rfl, by omega, by omega⟩

lemma improveInner_candidate_full (context answer : List String) (i : Nat)
    (hne : answer ≠ []) (hfull : fullMatchAt context answer i) (ne : Option Nat) :
    improveInner context answer i answer.length 0 ne =
      some (some (i + answer.length - 1)) := by
  have hlen : 1 ≤ answer.length := List.length_pos.mpr hne
  rw [improveInner_all context answer i answer.length 0 ne (by omega)
    (fun k _ hk2 => hfull.2 k hk2)]
  rw [if_neg (by omega)]

lemma improveInner_candidate_mismatch (context answer : List String) (i : Nat)
    (hne : answer ≠ []) (hbound : i + answer.length ≤ context.length)
    (hcand : context.get? i = answer.head?)
    (hnotfull : ¬ fullMatchAt context answer i) (ne : Option Nat) :
    ∃ v, improveInner context answer i answer.length 0 ne = some (some v) ∧
      i ≤ v ∧ v + 1 < i + answer.length := by
  obtain ⟨a0, as, rfl⟩ : ∃ a0 as, answer = a0 :: as := by
    cases answer with
    | nil => exact absurd rfl hne
    | cons a as => exact ⟨a, as, rfl⟩
  have hmis : ∃ k, k < (a0 :: as).length ∧
      context.get? (i + k) ≠ (a0 :: as).get? k := by
    by_contra hall
    push_neg at hall
    exact hnotfull ⟨hbound, hall⟩
  have h0 : context.get? (i + 0) = ((a0 :: as).get? 0) := by
    simpa using hcand
  have hmis' : ∃ k, 1 ≤ k ∧ k < (a0 :: as).length ∧
      context.get? (i + k) ≠ (a0 :: as).get? k := by
    obtain ⟨k, hk1, hk2⟩ := hmis
    refine ⟨k, ?_, hk1, hk2⟩
    rcases Nat.eq_zero_or_pos k with h | h
    · exact absurd (h ▸ h0) hk2
    · exact h
  have hij : i + 0 < context.length := by
    simp only [List.length_cons] at hbound
    omega
  have haj : (a0 :: as).get? 0 = some a0 := rfl
  have hc0 : context.get? (i + 0) = some a0 := h0.trans haj
  simp only [List.length_cons, improveInner, haj, hc0]
  rw [if_neg (fun hh => hh rfl)]
  obtain ⟨v, hv, h1, h2⟩ := improveInner_mismatch context (a0 :: as) i hbound
    as.length 1 (some (i + 0)) (by rw [List.length_cons]; omega) le_rfl
    (by congr 1) hmis'
  refine ⟨v, hv, h1, ?_⟩
  simp only [List.length_cons] at h2
  omega

lemma improveOuter_finds (context answer : List String) (sp ep i0 : Nat)
    (hne : answer ≠ []) (hfull : fullMatchAt context answer i0)
    (hcands : ∀ i, i < context.length → sp ≤ i →
      context.get? i = answer.head? → i + answer.length ≤ context.length)
    (hleft : ∀ i, i < i0 → sp ≤ i → ¬ fullMatchAt context answer i) :
    ∀ n i ne, i + n = context.length → sp ≤ i → i ≤ i0 →
      improveOuter context answer sp ep n i ne =
        some (i0, i0 + answer.length - 1) := by
  have hlen : 1 ≤ answer.length := List.length_pos.mpr hne
  have hi0lt : i0 < context.length := by
    have := hfull.1
    omega
  obtain ⟨a0, as, ha⟩ : ∃ a0 as, answer = a0 :: as := by
    cases answer with
    | nil => exact absurd rfl hne
    | cons a as => exact ⟨a, as, rfl⟩
  have hhead : answer.head? = some a0 := by rw [ha]; rfl
  have hi0get : context.get? i0 = some a0 := by
    have h := hfull.2 0 (by omega)
    rw [Nat.add_zero] at h
    rw [h, ha]
    rfl
  intro n
  induction n with
  | zero =>
    intro i ne hn hsp hii0
    omega
  | succ n ih =>
    intro i ne hn hsp hii0
    have hi : i < context.length := by omega
    have hci : context.get? i = some (context.get ⟨i, hi⟩) := List.get?_eq_get hi
    simp only [improveOuter, hci, hhead]
    by_cases hc : context.get ⟨i, hi⟩ = a0
    · rw [if_neg (fun hh => hh hc)]
      have hib : i + answer.length ≤ context.length :=
        hcands i hi hsp (by rw [hci, hc, hhead])
      rcases Nat.eq_or_lt_of_le hii0 with heq | hlt
      · subst heq
        simp only [improveInner_candidate_full context answer i hne hfull ne]
        rw [if_pos (by omega)]
      · obtain ⟨v, hv, hv1, hv2⟩ := improveInner_candidate_mismatch context answer
          i hne hib (by rw [hci, hc, hhead]) (hleft i hlt hsp) ne
        simp only [hv]
        rw [if_neg (by omega)]
        exact ih (i + 1) (some v) (by omega) (by omega) (by omega)
    · rw [if_pos hc]
      have hne0 : i ≠ i0 := by
        intro h
        subst h
        rw [hci] at hi0get
        exact hc (Option.some.inj hi0get)
      exact ih (i + 1) ne (by omega) (by omega) (by omega)

/-- C4: when the full answer token sequence occurs contiguously in the
context at some position at or after start_position, and every candidate
first-token match from start_position onward stays within bounds,
improve_answer_span returns (i, i + len(answer_tokens) - 1) for the
leftmost full-match position i. -/
theorem improve_answer_span_full_match (context answer : List String)
    (sp ep i0 : Nat)
    (hne : answer ≠ []) (hsp : sp ≤ i0)
    (hfull : fullMatchAt context answer i0)
    (hleft : ∀ i, i < i0 → sp ≤ i → ¬ fullMatchAt context answer i)
    (hcands : ∀ i, i < context.length → sp ≤ i →
      context.get? i = answer.head? → i + answer.length ≤ context.length) :
    improve_answer_span context answer sp ep =
      some (i0, i0 + answer.length - 1) := by
  have hlen : 1 ≤ answer.length := List.length_pos.mpr hne
  have hsplen : sp ≤ context.length := by
    have := hfull.1
    omega
  unfold improve_answer_span
  exact improveOuter_finds context answer sp ep i0 hne hfull hcands hleft
    (context.length - sp) sp none (by omega) le_rfl hsp

/-- Witness for C4: the worked example from the code's docstring returns
(6, 6). -/
theorem improve_answer_span_full_match_witness :
    improve_answer_span
      ["the", "leader", "was", "john", "smith", "(", "1895", "-", "1943", ")", "."]
      ["1895"] 5 5 = some (6, 6) := by
  have h := improve_answer_span_full_match
    ["the", "leader", "was", "john", "smith", "(", "1895", "-", "1943", ")", "."]
    ["1895"] 5 5 6 (by decide) (by decide) (by decide)
    (by decide) (by decide)
  simpa using h

/-- The while-True loop of data_process_with_sliding: emit the current
window (s_idx, e_idx), stop when e_idx >= context length, else advance
both bounds by doc_stride. fuel bounds the number of iterations; the
top-level definition supplies fuel that is proved sufficient whenever
doc_stride is positive (with stride 0 and e < L the Python loop never
terminates). -/
def slideGo (D L : Nat) : Nat → Nat → Nat → List (Nat × Nat)
  | 0, _, _ => []
  | fuel + 1, s, e => (s, e) :: (if e ≥ L then [] else slideGo D L fuel (s + D) (e + D))

/-- The sequence of half-open window bounds (s_idx, e_idx) emitted by
data_process_with_sliding for a context of subword length L, window width
W = rest_len and stride D. -/
def slideWindows (D W L : Nat) : List (Nat × Nat) :=
  slideGo D L (L + 1) 0 W

/-- One record appended by data_process_with_sliding in training mode:
input_ids, segment ids and the (possibly sentinel) answer positions.
The constant answer_text and question-id fields carried verbatim on every
record of an example are omitted. -/
structure SlidingRecord where
  input_ids : List Nat
  seg : List Nat
  start_pos : Nat
  end_pos : Nat
deriving DecidableEq

/-- The record built for one window (s, e) in training mode: the context
slice context_ids[s:e], input_ids = question_ids + slice + [SEP], and the
answer positions shifted into the window iff start_position >= s_idx and
end_position <= e_idx (note: e_idx inclusive on the right), else the
sentinel (0, 0). -/
def mkWindowRecord (SEP : Nat) (question_ids context_ids : List Nat)
    (sp ep s e : Nat) : SlidingRecord :=
  let tmp_context_ids := (context_ids.take e).drop s
  let input_ids := question_ids ++ tmp_context_ids ++ [SEP]
  let seg := List.replicate question_ids.length 0 ++
    List.replicate (input_ids.length - question_ids.length) 1
  if sp ≥ s ∧ ep ≤ e then
    { input_ids := input_ids, seg := seg,
      start_pos := sp - s + question_ids.length,
      end_pos := (sp - s) + (ep - sp) + question_ids.length }
  else
    { input_ids := input_ids, seg := seg, start_pos := 0, end_pos := 0 }

/-- data_process_with_sliding, per example, in training mode (is_training
= True), after the question has been tokenized, truncated and converted to
question_ids = [CLS] + ids + [SEP] and the context to context_ids, and the
answer span (sp, ep) realigned by improve_answer_span. rest_len =
max_sen_len - len(question_ids) - 1 uses truncated Nat subtraction: the
regime in which the Python value would be negative is exercised only at
rest_len = 0 (see the configuration-error theorem below). -/
def data_process_with_sliding_example (doc_stride max_sen_len SEP : Nat)
    (question_ids context_ids : List Nat) (sp ep : Nat) : List SlidingRecord :=
  let rest_len := max_sen_len - question_ids.length - 1
  if context_ids.length > rest_len then
    (slideWindows doc_stride rest_len context_ids.length).map
      (fun w => mkWindowRecord SEP question_ids context_ids sp ep w.1 w.2)
  else
    [{ input_ids := question_ids ++ context_ids ++ [SEP],
       seg := List.replicate question_ids.length 0 ++
         List.replicate ((question_ids ++ context_ids ++ [SEP]).length -
           question_ids.length) 1,
       start_pos := sp + question_ids.length,
       end_pos := ep + question_ids.length }]

/-- Number of loop iterations after the first window: the least k with
e + k * doc_stride >= L, as a ceiling division. -/
def firstStop (D L e : Nat) : Nat := (L - e + (D - 1)) / D

lemma firstStop_of_ge (D L e : Nat) (hD : 0 < D) (h : L ≤ e) :
    firstStop D L e = 0 := by
  unfold firstStop
  have h1 : L - e = 0 := by omega
  rw [h1]
  exact Nat.div_eq_of_lt (by omega)

lemma firstStop_of_lt (D L e : Nat) (hD : 0 < D) (h : e < L) :
    firstStop D L e = firstStop D L (e + D) + 1 := by
  unfold firstStop
  have h1 : L - e + (D - 1) = (L - e - 1) + D := by omega
  rw [h1, Nat.add_div_right _ hD]
  congr 1
  rcases Nat.lt_or_ge (L - e) (D + 1) with hc | hc
  · have h2 : L - (e + D) = 0 := by omega
    rw [h2, Nat.div_eq_of_lt (by omega), Nat.div_eq_of_lt (by omega)]
  · congr 1
    omega

lemma firstStop_le (D L e : Nat) (hD : 0 < D) : firstStop D L e ≤ L - e := by
  unfold firstStop
  rcases Nat.eq_zero_or_pos (L - e) with h | h
  · rw [h]
    have := Nat.div_eq_of_lt (show D - 1 < D by omega)
    simpa using this
  · have h1 : L - e + (D - 1) = (L - e - 1) + D := by omega
    rw [h1, Nat.add_div_right _ hD]
    have := Nat.div_le_self (L - e - 1) D
    omega

lemma firstStop_reaches (D L e : Nat) (hD : 0 < D) :
    L ≤ e + firstStop D L e * D := by
  rcases Nat.lt_or_ge e L with h | h
  · unfold firstStop
    have h1 := Nat.mod_add_div' (L - e + (D - 1)) D
    have h2 := Nat.mod_lt (L - e + (D - 1)) hD
    omega
  · omega

lemma slideGo_eq (D L : Nat) (hD : 0 < D) :
    ∀ fuel s e, firstStop D L e < fuel →
      slideGo D L fuel s e =
        (List.range (firstStop D L e + 1)).map
          (fun k => (s + k * D, e + k * D)) := by
  intro fuel
  induction fuel with
  | zero => intro s e h; omega
  | succ fuel ih =>
    intro s e h
    rcases Nat.lt_or_ge e L with he | he
    · have hfs := firstStop_of_lt D L e hD he
      have hr : (List.range (firstStop D L (e + D) + 1 + 1)).map
          (fun k => (s + k * D, e + k * D)) =
          (s, e) :: (List.range (firstStop D L (e + D) + 1)).map
            (fun k => (s + D + k * D, e + D + k * D)) := by
        rw [List.range_succ_eq_map, List.map_cons, List.map_map]
        congr 1
        · simp
        · apply List.map_congr_left
          intro k _
          simp only [Function.comp_apply, Nat.succ_mul, Prod.mk.injEq]
          exact ⟨by ring, by ring⟩
      rw [slideGo, if_neg (by omega), ih (s + D) (e + D) (by omega), hfs, hr]
    · rw [slideGo, if_pos he, firstStop_of_ge D L e hD he]
      have h1 : List.range 1 = [0] := rfl
      rw [h1]
      simp

lemma slideWindows_eq (D W L : Nat) (hD : 0 < D) :
    slideWindows D W L =
      (List.range (firstStop D L W + 1)).map (fun k => (k * D, W + k * D)) := by
  unfold slideWindows
  have hfuel : firstStop D L W < L + 1 := by
    have h1 := firstStop_le D L W hD
    omega
  rw [slideGo_eq D L hD (L + 1) 0 W hfuel]
  apply List.map_congr_left
  intro k _
  simp

lemma slideWindows_length (D W L : Nat) (hD : 0 < D) :
    (slideWindows D W L).length = firstStop D L W + 1 := by
  rw [slideWindows_eq D W L hD]
  simp

lemma slideWindows_cover (D W L : Nat) (hD : 0 < D) (hDW : D ≤ W)
    (x : Nat) (hx : x < L) :
    ∃ w ∈ slideWindows D W L, w.1 ≤ x ∧ x < w.2 := by
  rw [slideWindows_eq D W L hD]
  rcases Nat.lt_or_ge (firstStop D L W) (x / D) with hk | hk
  · -- x lies beyond the stride positions: the last window reaches L > x
    refine ⟨(firstStop D L W * D, W + firstStop D L W * D), ?_, ?_, ?_⟩
    · simp only [List.mem_map, List.mem_range]
      exact ⟨firstStop D L W, by omega, rfl⟩
    · have h1 : (firstStop D L W + 1) * D ≤ x :=
        (Nat.le_div_iff_mul_le hD).mp hk
      have h2 : (firstStop D L W + 1) * D = firstStop D L W * D + D :=
        Nat.succ_mul _ _
      omega
    · have h3 := firstStop_reaches D L W hD
      omega
  · -- the window with index x / D contains x
    refine ⟨(x / D * D, W + x / D * D), ?_, ?_, ?_⟩
    · simp only [List.mem_map, List.mem_range]
      exact ⟨x / D, by omega, rfl⟩
    · exact Nat.div_mul_le_self x D
    · have h1 := Nat.mod_add_div' x D
      have h2 := Nat.mod_lt x hD
      omega

/-- C2 counterexample: with doc_stride 5 and rest_len 2 (max_sen_len 6,
three question ids) over a context of subword length 10, the loop emits
the windows (0,2), (5,7), (10,12); the count formula holds but the union
of the half-open ranges does not cover [0, 10): position 2 is in no
window. -/
theorem sliding_windows_do_not_cover :
    (10 : Nat) > 6 - 3 - 1 ∧
      slideWindows 5 (6 - 3 - 1) 10 = [(0, 2), (5, 7), (10, 12)] ∧
      (data_process_with_sliding_example 5 6 1 [9, 9, 9]
        [7, 7, 7, 7, 7, 7, 7, 7, 7, 7] 0 0).length = 3 ∧
      ¬ (∀ x, x < 10 → ∃ w ∈ slideWindows 5 (6 - 3 - 1) 10,
        w.1 ≤ x ∧ x < w.2) := by
  exact ⟨by decide, by decide, by decide, by decide⟩

/-- C2 (amended): with a positive doc_stride D, for a context of subword
length L and window width W = rest_len = max_sen_len - len(question_ids)
- 1: when L > W the loop emits exactly (L - W + (D - 1)) / D + 1 =
ceil((L - W) / D) + 1 records, whose windows start at (0, W) and advance
both bounds by D; when additionally D <= W the half-open windows jointly
cover [0, L) (for D > W the windows leave gaps); when L <= W exactly one
record is emitted; at least one record is always emitted. -/
theorem sliding_window_count_and_coverage
    (D mls SEP sp ep W L n : Nat) (qids cids : List Nat)
    (hD : 0 < D)
    (hW : W = mls - qids.length - 1)
    (hL : L = cids.length)
    (hn : n = (L - W + (D - 1)) / D + 1) :
    (L > W →
      (data_process_with_sliding_example D mls SEP qids cids sp ep).length = n ∧
      slideWindows D W L = (List.range n).map (fun k => (k * D, W + k * D)) ∧
      (D ≤ W → ∀ x, x < L → ∃ w ∈ slideWindows D W L, w.1 ≤ x ∧ x < w.2)) ∧
    (L ≤ W →
      (data_process_with_sliding_example D mls SEP qids cids sp ep).length = 1) ∧
    0 < (data_process_with_sliding_example D mls SEP qids cids sp ep).length := by
  have hfs : firstStop D L W + 1 = n := by
    rw [hn]
    rfl
  refine ⟨?_, ?_, ?_⟩
  · intro hLW
    refine ⟨?_, ?_, ?_⟩
    · simp only [data_process_with_sliding_example]
      rw [if_pos (by omega)]
      rw [List.length_map, ← hL, ← hW, slideWindows_length D W L hD, hfs]
    · rw [slideWindows_eq D W L hD, hfs]
    · intro hDW x hx
      exact slideWindows_cover D W L hD hDW x hx
  · intro hLW
    simp only [data_process_with_sliding_example]
    rw [if_neg (by omega)]
    rfl
  · simp only [data_process_with_sliding_example]
    by_cases hc : cids.length > mls - qids.length - 1
    · rw [if_pos hc]
      rw [List.length_map]
      have := slideWindows_length D (mls - qids.length - 1) cids.length hD
      omega
    · rw [if_neg hc]
      simp

/-- Witness for the amended C2 at a concrete configuration: stride 2,
rest_len 4, context length 6 gives ceil((6-4)/2)+1 = 2 records. -/
theorem sliding_window_count_and_coverage_witness :
    (data_process_with_sliding_example 2 8 9 [1, 1, 1] [4, 4, 4, 4, 4, 4]
      0 0).length = 2 := by
  have h := sliding_window_count_and_coverage 2 8 9 0 0 4 6 2 [1, 1, 1]
    [4, 4, 4, 4, 4, 4] (by decide) (by decide) (by decide) (by decide)
  exact (h.1 (by decide)).1

/-- C3: the code contains no check on rest_len. When the configured
maximum sequence length leaves no room for context (rest_len =
max_sen_len - len(question_ids) - 1 = 0, here 4 - 3 - 1), the sliding
branch does not raise: it silently emits one degenerate record per stride
step, each consisting of the question ids and the final separator only
(empty context window). The spec requires a fatal error here instead. -/
theorem sliding_no_error_on_degenerate_window :
    4 - ([9, 9, 9] : List Nat).length - 1 = 0 ∧
      (data_process_with_sliding_example 1 4 1 [9, 9, 9] [5, 5] 0 0).length = 3 ∧
      ∀ r ∈ data_process_with_sliding_example 1 4 1 [9, 9, 9] [5, 5] 0 0,
        r.input_ids = [9, 9, 9, 1] := by
  exact ⟨by decide, by decide, by decide⟩

/-- C1 counterexample: stride 2, rest_len 4, context length 6 gives the
windows (0,4) and (2,6). The realigned span (3,4) lies fully inside
exactly one half-open window [s_idx, e_idx), namely (2,6); yet the other
window's record carries the non-sentinel positions (6,7), because the
code's inclusion test uses end_position <= e_idx with e_idx inclusive. -/
theorem answer_window_positions_counterexample :
    slideWindows 2 (8 - 3 - 1) 6 = [(0, 4), (2, 6)] ∧
      ¬ ((0 : Nat) ≤ 3 ∧ (4 : Nat) < 4) ∧
      ((2 : Nat) ≤ 3 ∧ (4 : Nat) < 6) ∧
      (data_process_with_sliding_example 2 8 99 [1, 1, 1]
        [10, 11, 12, 13, 14, 15] 3 4).map (fun r => (r.start_pos, r.end_pos)) =
        [(6, 7), (4, 5)] := by
  exact ⟨by decide, by decide, by decide, by decide⟩

/-- C1 (amended): in sliding-window training mode, the k-th emitted record
carries the shifted positions (start - s_idx + len(question_ids),
end - s_idx + len(question_ids)) exactly when s_idx <= start and
end <= e_idx — the upper bound inclusive, so a span ending exactly at a
window's excluded right edge is also treated as present there — and the
sentinel (0, 0) otherwise; whenever the span lies inside the half-open
window (end < e_idx), the record's tokens at those positions are exactly
the answer's context ids. -/
theorem answer_window_positions (D mls SEP sp ep W L : Nat)
    (qids cids : List Nat)
    (hW : W = mls - qids.length - 1) (hL : L = cids.length)
    (hLW : L > W) (hspep : sp ≤ ep) (hepL : ep < L) :
    ∀ k s e, (slideWindows D W L).get? k = some (s, e) →
      ∃ r, (data_process_with_sliding_example D mls SEP qids cids sp ep).get? k
          = some r ∧
        (s ≤ sp ∧ ep ≤ e →
          r.start_pos = sp - s + qids.length ∧
          r.end_pos = ep - s + qids.length) ∧
        (¬ (s ≤ sp ∧ ep ≤ e) → r.start_pos = 0 ∧ r.end_pos = 0) ∧
        (s ≤ sp → ep < e →
          (r.input_ids.drop r.start_pos).take (ep - sp + 1) =
            (cids.drop sp).take (ep - sp + 1)) := by
  intro k s e hk
  have hdp : data_process_with_sliding_example D mls SEP qids cids sp ep =
      (slideWindows D W L).map
        (fun w => mkWindowRecord SEP qids cids sp ep w.1 w.2) := by
    simp only [data_process_with_sliding_example]
    rw [if_pos (by omega), ← hW, ← hL]
  refine ⟨mkWindowRecord SEP qids cids sp ep s e, ?_, ?_, ?_, ?_⟩
  · rw [hdp, List.get?_map, hk]
    rfl
  · intro hcond
    unfold mkWindowRecord
    rw [if_pos ⟨hcond.1, hcond.2⟩]
    exact ⟨rfl, by dsimp only; omega⟩
  · intro hcond
    unfold mkWindowRecord
    rw [if_neg (fun hh => hcond ⟨hh.1, hh.2⟩)]
    exact ⟨rfl, rfl⟩
  · intro hs hep
    have hcond : sp ≥ s ∧ ep ≤ e := ⟨hs, by omega⟩
    unfold mkWindowRecord
    rw [if_pos hcond]
    dsimp only
    have htmplen : ((cids.take e).drop s).length = min e cids.length - s := by
      simp
    have hmin : sp < min e cids.length := by omega
    have h1 : sp - s + qids.length = qids.length + (sp - s) := Nat.add_comm _ _
    rw [h1, List.append_assoc, List.drop_append]
    have h2 : sp - s ≤ ((cids.take e).drop s).length := by omega
    rw [List.drop_append_of_le_length h2]
    have h3 : ep - sp + 1 ≤ (((cids.take e).drop s).drop (sp - s)).length := by
      rw [List.length_drop]
      omega
    rw [List.take_append_of_le_length h3]
    rw [List.drop_drop]
    have h4 : s + (sp - s) = sp := by omega
    rw [h4]
    rw [List.drop_take, List.take_take]
    congr 1
    omega

/-- Witness for the amended C1: concrete instantiation at the second
window (2,6) of the counterexample configuration. -/
theorem answer_window_positions_witness :
    ∃ r, (data_process_with_sliding_example 2 8 99 [1, 1, 1]
        [10, 11, 12, 13, 14, 15] 3 4).get? 1 = some r ∧
      ((2 : Nat) ≤ 3 ∧ (4 : Nat) ≤ 6 →
        r.start_pos = 3 - 2 + ([1, 1, 1] : List Nat).length ∧
        r.end_pos = 4 - 2 + ([1, 1, 1] : List Nat).length) ∧
      (¬ ((2 : Nat) ≤ 3 ∧ (4 : Nat) ≤ 6) → r.start_pos = 0 ∧ r.end_pos = 0) ∧
      ((2 : Nat) ≤ 3 → (4 : Nat) < 6 →
        (r.input_ids.drop r.start_pos).take (4 - 3 + 1) =
          (([10, 11, 12, 13, 14, 15] : List Nat).drop 3).take (4 - 3 + 1)) :=
  answer_window_positions 2 8 99 3 4 4 6 [1, 1, 1] [10, 11, 12, 13, 14, 15]
    (by decide) (by decide) (by decide) (by decide) (by decide) 1 2 6 (by decide)

/-- The configuration fields of the QA loader used by the encoding steps.
CLS_IDX and SEP_IDX are the vocabulary ids of the reserved tokens. -/
structure QAConfig where
  max_query_length : Nat
  max_position_embeddings : Nat
  CLS_IDX : Nat
  SEP_IDX : Nat

/-- Question truncation: questions longer than max_query_length are cut to
that length. -/
def truncate_question (cfg : QAConfig) (question_tokens : List String) :
    List String :=
  if question_tokens.length > cfg.max_query_length then
    question_tokens.take cfg.max_query_length
  else question_tokens

/-- question_ids = [CLS_IDX] + vocabulary ids of the (truncated) question
tokens + [SEP_IDX]. The tokenizer and vocabulary are external
collaborators, passed as the token list and the vocab function. -/
def build_question_ids (cfg : QAConfig) (vocab : String → Nat)
    (question_tokens : List String) : List Nat :=
  [cfg.CLS_IDX] ++ (truncate_question cfg question_tokens).map vocab ++
    [cfg.SEP_IDX]

/-- data_process_without_sliding, per example: input_ids and segment ids.
max_position_embeddings - 1 uses Nat subtraction; with the positive
max_position_embeddings of any BERT configuration this coincides with the
Python value. The per-record answer-position and answer-text fields are
not referenced by the verified claim and are omitted. -/
def data_process_without_sliding_example (cfg : QAConfig)
    (vocab : String → Nat) (question_tokens context_tokens : List String) :
    List Nat × List Nat :=
  let question_ids := build_question_ids cfg vocab question_tokens
  let context_ids := context_tokens.map vocab
  let ids0 := question_ids ++ context_ids
  let ids1 :=
    if ids0.length > cfg.max_position_embeddings - 1 then
      ids0.take (cfg.max_position_embeddings - 1)
    else ids0
  let input_ids := ids1 ++ [cfg.SEP_IDX]
  let seg := List.replicate question_ids.length 0 ++
    List.replicate (input_ids.length - question_ids.length) 1
  (input_ids, seg)

/-- data_process_without_sliding over a list of surviving examples, each
given as (question tokens, context tokens): one record per example. -/
def data_process_without_sliding (cfg : QAConfig) (vocab : String → Nat)
    (examples : List (List String × List String)) : List (List Nat × List Nat) :=
  examples.map (fun ex => data_process_without_sliding_example cfg vocab ex.1 ex.2)

/-- C6: the no-sliding path emits exactly one record per surviving
example; its input_ids are [CLS] + truncated-question ids + [SEP] + full
context ids, truncated to the first max_position_embeddings - 1 ids when
longer, with one final SEP id appended; hence every record's input_ids
length is at most max_position_embeddings and its last element is the SEP
id. -/
theorem no_sliding_record_shape (cfg : QAConfig) (vocab : String → Nat)
    (examples : List (List String × List String))
    (hmpe : 1 ≤ cfg.max_position_embeddings) :
    (data_process_without_sliding cfg vocab examples).length = examples.length ∧
    ∀ qt ct, (qt, ct) ∈ examples →
      (data_process_without_sliding_example cfg vocab qt ct).1 =
        (if (build_question_ids cfg vocab qt ++ ct.map vocab).length >
            cfg.max_position_embeddings - 1 then
          (build_question_ids cfg vocab qt ++ ct.map vocab).take
            (cfg.max_position_embeddings - 1)
        else build_question_ids cfg vocab qt ++ ct.map vocab) ++
          [cfg.SEP_IDX] ∧
      (data_process_without_sliding_example cfg vocab qt ct).1.length ≤
        cfg.max_position_embeddings ∧
      (data_process_without_sliding_example cfg vocab qt ct).1.getLast? =
        some cfg.SEP_IDX := by
  refine ⟨by simp [data_process_without_sliding], ?_⟩
  intro qt ct _
  refine ⟨rfl, ?_, ?_⟩
  · simp only [data_process_without_sliding_example]
    by_cases hc : (build_question_ids cfg vocab qt ++ ct.map vocab).length >
        cfg.max_position_embeddings - 1
    · rw [if_pos hc]
      rw [List.length_append, List.length_take]
      simp only [List.length_singleton]
      omega
    · rw [if_neg hc]
      rw [List.length_append]
      simp only [List.length_singleton]
      omega
  · simp only [data_process_without_sliding_example]
    exact List.getLast?_concat _

/-- Witness for C6 at a concrete configuration: one record, within the
length budget, ending in the SEP id. -/
theorem no_sliding_record_shape_witness :
    (data_process_without_sliding ⟨2, 5, 101, 102⟩ (fun _ => 7)
      [(["q"], ["c", "d", "e", "f"])]).length = 1 ∧
    (data_process_without_sliding_example ⟨2, 5, 101, 102⟩ (fun _ => 7)
      ["q"] ["c", "d", "e", "f"]).1.length ≤ 5 ∧
    (data_process_without_sliding_example ⟨2, 5, 101, 102⟩ (fun _ => 7)
      ["q"] ["c", "d", "e", "f"]).1.getLast? = some 102 := by
  have h := no_sliding_record_shape ⟨2, 5, 101, 102⟩ (fun _ => 7)
    [(["q"], ["c", "d", "e", "f"])] (by decide)
  have h2 := h.2 ["q"] ["c", "d", "e", "f"] (by simp)
  exact ⟨h.1, h2.2.1, h2.2.2⟩

/-- The ASCII whitespace characters recognised by Python str.strip() /
str.split() with no argument (the unicode whitespace code points play no
role in the verified claims). -/
def isPySpace (c : Char) : Bool :=
  c = ' ' || c = '\t' || c = '\n' || c = '\r' || c = '\x0b' || c = '\x0c'

/-- Python str.strip(): remove leading and trailing whitespace. -/
def pyStrip (s : List Char) : List Char :=
  ((s.dropWhile isPySpace).reverse.dropWhile isPySpace).reverse

/-- Worker for pySplit: acc holds the reversed characters of the word
currently being read. -/
def pySplitGo : List Char → List Char → List (List Char)
  | [], acc => if acc.isEmpty then [] else [acc.reverse]
  | c :: rest, acc =>
    if isPySpace c then
      if acc.isEmpty then pySplitGo rest [] else acc.reverse :: pySplitGo rest []
    else pySplitGo rest (c :: acc)

/-- Python str.split() with no argument: split on whitespace runs,
discarding empty pieces. -/
def pySplit (s : List Char) : List (List Char) := pySplitGo s []

/-- Python substring test: text.find(sub) != -1. -/
def containsSub : List Char → List Char → Bool
  | [], needle => needle.isEmpty
  | h :: t, needle => needle.isPrefixOf (h :: t) || containsSub t needle

/-- " ".join over a token list, at character level. -/
def joinWords (ts : List String) : List Char :=
  List.intercalate [' '] (ts.map String.data)

/-- " ".join(orig_answer_text.strip().split()). -/
def cleanedAnswer (ans : List Char) : List Char :=
  List.intercalate [' '] (pySplit (pyStrip ans))

/-- One question-answer pair of the raw SQuAD JSON (training fields). -/
structure RawQA where
  qas_id : String
  question_text : String
  answer_start : Nat
  answer_text : List Char
deriving DecidableEq

/-- One element of the list returned by preprocessing: [qas_id,
question_text, orig_answer_text, " ".join(context_tokens),
start_position, end_position]. -/
structure SquadExample where
  qas_id : String
  question_text : String
  orig_answer_text : List Char
  context_text : List Char
  start_position : Int
  end_position : Int
deriving DecidableEq

/-- The training-mode body of the qas loop of preprocessing for one
question-answer pair: .error () models a raised IndexError on the
word_offset lookups, .ok none the dropped (warning-logged) example, and
.ok (some _) the appended example. -/
def processQA (context_tokens : List String) (word_offset : List Int)
    (qa : RawQA) : Except Unit (Option SquadExample) :=
  match pyGet word_offset (qa.answer_start : Int) with
  | none => .error ()
  | some start_position =>
    match pyGet word_offset
        ((qa.answer_start : Int) + qa.answer_text.length - 1) with
    | none => .error ()
    | some end_position =>
      let actual_text :=
        joinWords (pySliceI context_tokens start_position (end_position + 1))
      let cleaned_answer_text := cleanedAnswer qa.answer_text
      if containsSub actual_text cleaned_answer_text then
        .ok (some ⟨qa.qas_id, qa.question_text, qa.answer_text,
          joinWords context_tokens, start_position, end_position⟩)
      else .ok none

/-- The qas loop of preprocessing (training mode) over one context:
a raised exception aborts the scan, a dropped example is skipped, all
other examples are appended in order. -/
def preprocessing_qas (context_tokens : List String) (word_offset : List Int) :
    List RawQA → Except Unit (List SquadExample)
  | [] => .ok []
  | qa :: rest =>
    match processQA context_tokens word_offset qa with
    | .error e => .error e
    | .ok none => preprocessing_qas context_tokens word_offset rest
    | .ok (some ex) =>
      match preprocessing_qas context_tokens word_offset rest with
      | .error e => .error e
      | .ok exs => .ok (ex :: exs)

/-- preprocessing (training mode) for one paragraph: compute the context
token list and character-to-word offsets once, then process its
question-answer pairs. -/
def preprocessing_paragraph (context : List Char) (qas : List RawQA) :
    Except Unit (List SquadExample) :=
  preprocessing_qas (get_format_text_and_word_offset context).1
    (get_format_text_and_word_offset context).2 qas

/-- The answer offsets of a question-answer pair address valid positions
of the character-to-word offset map (SQuAD-format data guarantees this). -/
def wfQA (word_offset : List Int) (qa : RawQA) : Prop :=
  (qa.answer_start : Int) < word_offset.length ∧
    (qa.answer_start : Int) + qa.answer_text.length - 1 < word_offset.length

instance (word_offset : List Int) (qa : RawQA) :
    Decidable (wfQA word_offset qa) := by
  unfold wfQA
  infer_instance

/-- The derived word-level answer positions of a question-answer pair. -/
def answer_positions (word_offset : List Int) (qa : RawQA) : Int × Int :=
  ((pyGet word_offset (qa.answer_start : Int)).getD 0,
   (pyGet word_offset
     ((qa.answer_start : Int) + qa.answer_text.length - 1)).getD 0)

/-- Whether the reconstructed span text contains the whitespace-normalized
original answer, i.e. whether preprocessing keeps the example. -/
def keepQA (context_tokens : List String) (word_offset : List Int)
    (qa : RawQA) : Bool :=
  containsSub
    (joinWords (pySliceI context_tokens (answer_positions word_offset qa).1
      ((answer_positions word_offset qa).2 + 1)))
    (cleanedAnswer qa.answer_text)

/-- The example record built by preprocessing for a kept pair. -/
def buildExample (context_tokens : List String) (word_offset : List Int)
    (qa : RawQA) : SquadExample :=
  ⟨qa.qas_id, qa.question_text, qa.answer_text, joinWords context_tokens,
   (answer_positions word_offset qa).1, (answer_positions word_offset qa).2⟩

lemma pyGet_nonneg {α : Type} (l : List α) (i : Int) (h0 : 0 ≤ i) :
    pyGet l i = l.get? i.toNat := by
  unfold pyGet
  rw [if_neg (by omega)]
  rw [if_neg (by omega)]

lemma pyGet_neg {α : Type} (l : List α) (i : Int) (h0 : i < 0)
    (h1 : 0 ≤ i + l.length) : pyGet l i = l.get? (i + l.length).toNat := by
  unfold pyGet
  rw [if_pos h0]
  rw [if_neg (by omega)]

lemma pyGet_isSome {α : Type} (l : List α) (i : Int)
    (h0 : -(l.length : Int) ≤ i) (h1 : i < l.length) :
    ∃ v, pyGet l i = some v := by
  rcases Int.lt_or_le i 0 with hneg | hpos
  · rw [pyGet_neg l i hneg (by omega)]
    have h2 : (i + l.length).toNat < l.length := by omega
    exact ⟨_, List.get?_eq_get h2⟩
  · rw [pyGet_nonneg l i hpos]
    have h2 : i.toNat < l.length := by omega
    exact ⟨_, List.get?_eq_get h2⟩

lemma processQA_wf (ct : List String) (wo : List Int) (qa : RawQA)
    (h : wfQA wo qa) :
    processQA ct wo qa =
      .ok (if keepQA ct wo qa then some (buildExample ct wo qa) else none) := by
  obtain ⟨h1, h2⟩ := h
  obtain ⟨sp, hsp⟩ := pyGet_isSome wo (qa.answer_start : Int) (by omega) h1
  obtain ⟨ep, hep⟩ := pyGet_isSome wo
    ((qa.answer_start : Int) + qa.answer_text.length - 1) (by omega) h2
  have hap : answer_positions wo qa = (sp, ep) := by
    unfold answer_positions
    rw [hsp, hep]
    rfl
  have hkeep : keepQA ct wo qa =
      containsSub (joinWords (pySliceI ct sp (ep + 1)))
        (cleanedAnswer qa.answer_text) := by
    unfold keepQA
    rw [hap]
  have hbuild : buildExample ct wo qa =
      ⟨qa.qas_id, qa.question_text, qa.answer_text, joinWords ct, sp, ep⟩ := by
    unfold buildExample
    rw [hap]
  simp only [processQA, hsp, hep]
  by_cases hc : containsSub (joinWords (pySliceI ct sp (ep + 1)))
      (cleanedAnswer qa.answer_text) = true
  · rw [if_pos hc, hkeep, if_pos hc, hbuild]
  · rw [if_neg hc, hkeep, if_neg hc]

/-- C7: in training preprocessing, every question-answer pair whose
reconstructed span text does not contain the whitespace-normalized
original answer is omitted from the returned list, while all remaining
pairs produce their examples in order and no exception is raised: the
result is exactly the filter of the kept pairs, mapped to their example
records. -/
theorem preprocessing_drops_mismatched (context : List Char)
    (qas : List RawQA)
    (hwf : ∀ qa ∈ qas, wfQA (get_format_text_and_word_offset context).2 qa) :
    preprocessing_paragraph context qas =
      .ok ((qas.filter fun qa =>
          keepQA (get_format_text_and_word_offset context).1
            (get_format_text_and_word_offset context).2 qa).map
        (buildExample (get_format_text_and_word_offset context).1
          (get_format_text_and_word_offset context).2)) := by
  unfold preprocessing_paragraph
  induction qas with
  | nil => rfl
  | cons qa rest ih =>
    have hqa := hwf qa (List.mem_cons_self qa rest)
    have hrest := fun q hq => hwf q (List.mem_cons_of_mem qa hq)
    simp only [preprocessing_qas, processQA_wf _ _ qa hqa]
    by_cases hc : keepQA (get_format_text_and_word_offset context).1
        (get_format_text_and_word_offset context).2 qa = true
    · rw [if_pos hc]
      rw [ih hrest]
      rw [List.filter_cons_of_pos hc]
      rfl
    · rw [if_neg hc]
      rw [ih hrest]
      rw [List.filter_cons_of_neg (by simpa using hc)]

/-- Witness for C7: a paragraph with one corrupt pair (claimed answer
"zz" at offset 0 inside "ab cd") and one good pair (answer "ab"): the
corrupt pair is dropped, the good one is kept. -/
theorem preprocessing_drops_mismatched_witness :
    preprocessing_paragraph ['a', 'b', ' ', 'c', 'd']
      [⟨"q1", "question1", 0, ['z', 'z']⟩,
       ⟨"q2", "question2", 0, ['a', 'b']⟩] =
      .ok [⟨"q2", "question2", ['a', 'b'], ['a', 'b', ' ', 'c', 'd'], 0, 0⟩] := by
  have h := preprocessing_drops_mismatched ['a', 'b', ' ', 'c', 'd']
    [⟨"q1", "question1", 0, ['z', 'z']⟩, ⟨"q2", "question2", 0, ['a', 'b']⟩]
    (by decide)
  rw [h]
  rfl
